import Mathlib

/-!
Shallow embedding of the caption-acquisition and analysis pipeline of
`src/app.py` (functions `query_hf_api` and `analyze_image`), together with
proofs of the specified properties.

Modelling conventions:
* Python exceptions are values of `PyErr`; a function that can raise returns
  `Except PyErr _`.  `str(e)` is `PyErr.msg`, `type(e).__name__` is
  `PyErr.typeName`.
* The Hugging Face client call `client.image_to_text(image, model=model)` is
  an abstract parameter `backend : Nat × Nat → String → Except PyErr
  BackendResult` (the image is reduced to its width/height pair, the only
  attribute the pipeline inspects).
* Python `str.strip()` is `pyStrip`, `str.lower()` maps `Char.toLower`
  over the characters (the source strings involved are ASCII), and the float
  expressions `megapixels = (w*h)/1_000_000 > 20`/`> 50` and
  `int(height * (new_width / width))` are modelled by the exact integer
  comparisons `w*h > 20000000`/`> 50000000` and by `Nat` floor division.
* `re.search(r'\b' + re.escape(obj) + r's?\b', text)` is the word-boundary
  scanner `searchWordAux` below (`re.escape` is the identity on the purely
  alphabetic vocabulary words; `\w` is modelled as ASCII alphanumeric or
  underscore, which agrees with Python on the ASCII strings involved).
* Python's `set(visible_objects)` iterates in unspecified order; it is
  modelled by `List.dedup`, which keeps the first occurrence of each element.
-/

/-- A Python exception value: either a `ValueError` or a generic exception
carrying its class name.  `msg` plays the role of `str(e)`. -/
inductive PyErr where
  | valueError (msg : String)
  | exc (excName msg : String)
deriving DecidableEq, Repr

/-- Python `str(e)`. -/
def PyErr.msg : PyErr → String
  | PyErr.valueError m => m
  | PyErr.exc _ m => m

/-- Python `type(e).__name__`. -/
def PyErr.typeName : PyErr → String
  | PyErr.valueError _ => "ValueError"
  | PyErr.exc n _ => n

/-- What `client.image_to_text` may hand back: a plain string, a list of
dicts (each dict reduced to its optional `generated_text` field), or some
unexpected value (`other`). -/
inductive BackendResult where
  | str (s : String)
  | list (items : List (Option String))
  | other
deriving DecidableEq, Repr

/-- Python `str.strip()`: remove leading and trailing whitespace
(character-list implementation, kernel-reducible). -/
def pyStrip (s : String) : String :=
  String.mk
    (((s.toList.dropWhile Char.isWhitespace).reverse.dropWhile
        Char.isWhitespace).reverse)

/-- Substring containment on character lists: does `needle` occur
contiguously in `hay`? -/
def listContains (needle : List Char) : List Char → Bool
  | [] => needle.isEmpty
  | c :: rest => needle.isPrefixOf (c :: rest) || listContains needle rest

/-- Python `needle in haystack` on strings (substring containment). -/
def strContains (hay needle : String) : Bool :=
  listContains needle.toList hay.toList

/-- Lines 69-79 of `app.py`: normalise the backend's result into the list
shape the caller expects.  A string is wrapped as
`[{"generated_text": result.strip()}]`; a non-empty list is returned as is;
anything else becomes the placeholder caption. -/
def wrapResult : BackendResult → List (Option String)
  | BackendResult.str s => [some (pyStrip s)]
  | BackendResult.list items =>
      if items.length > 0 then items else [some "Unable to generate caption"]
  | BackendResult.other => [some "Unable to generate caption"]

/-- Python `f"...{last_error}"` when `last_error` may be `None`. -/
def optionToPyStr : Option String → String
  | none => "None"
  | some s => s

/-- Line 96 of `app.py`: the `last_error` string recorded for a failed
candidate. -/
def fmtFail (model : String) (e : PyErr) : String :=
  "Model " ++ model ++ " failed: " ++ e.msg ++ " (" ++ e.typeName ++ ")"

/-- Line 104 of `app.py`: the message of the exception raised after all
candidates failed. -/
def aggMsg (last_error : Option String) : String :=
  "All models failed. Last error: " ++ optionToPyStr last_error

/-- Lines 53-104 of `app.py`: the fallback loop of `query_hf_api`.  Returns
the list of candidates actually attempted (in order) together with either
the normalised result of the first success or the aggregate exception.
`last_error` threads the loop variable of the same name. -/
def queryLoop (backend : Nat × Nat → String → Except PyErr BackendResult)
    (image : Nat × Nat) :
    List String → Option String → List String × Except PyErr (List (Option String))
  | [], last_error =>
      ([], Except.error (PyErr.exc "Exception" (aggMsg last_error)))
  | m :: rest, last_error =>
      match backend image m with
      | Except.ok r => ([m], Except.ok (wrapResult r))
      | Except.error e =>
          let next := queryLoop backend image rest (some (fmtFail m e))
          (m :: next.1, next.2)

/-- Lines 25-104 of `app.py`: `query_hf_api`.  The token is read, stripped
and validated; then the primary model followed by the fallbacks is tried in
order.  The `InferenceClient` construction is assumed to succeed (its
failure is just another generic exception for the caller).  The first
component is the list of candidates attempted. -/
def queryHfApi (backend : Nat × Nat → String → Except PyErr BackendResult)
    (image : Nat × Nat) (token : String) (model_id : String)
    (fallback_models : List String) :
    List String × Except PyErr (List (Option String)) :=
  let t := pyStrip token
  if t = "" ∨ t = "your_token_here" then
    ([], Except.error
      (PyErr.valueError "Please set a valid HUGGINGFACE_TOKEN in your .env file"))
  else
    queryLoop backend image (model_id :: fallback_models) none

/-- Lines 130-138 of `app.py`: downscale an extremely large image, capping
the longer side at 5000 while preserving the aspect ratio.  Python's
`int(height * (new_width / width))` is modelled as `Nat` floor division. -/
def resizeLarge (width height : Nat) : Nat × Nat :=
  let max_dimension := 5000
  if width > height then
    let new_width := min width max_dimension
    (new_width, height * new_width / width)
  else
    let new_height := min height max_dimension
    (width * new_height / height, new_height)

/-- An input to `analyze_image`: either a PIL image (reduced to its
dimensions; it has `size` and `convert` attributes) or a file-path string
(which has neither). -/
inductive ImageInput where
  | pil (width height : Nat)
  | path (p : String)
deriving DecidableEq, Repr

/-- Lines 118-151 of `app.py`: the size check and RGB conversion, yielding
the dimensions of the image handed to `query_hf_api`.  The resize block is
guarded by `hasattr(image, 'size')`, so a path string skips it; the path is
then opened at its original dimensions (`openImg` models the file system)
and `convert('RGB')` leaves dimensions unchanged. -/
def preprocess (openImg : String → Nat × Nat) : ImageInput → Nat × Nat
  | ImageInput.pil w h =>
      if w * h > 20000000 then
        if w * h > 50000000 then resizeLarge w h else (w, h)
      else (w, h)
  | ImageInput.path p => openImg p

/-- Lines 165-173 of `app.py`: extract `general_summary` from the result
list (`result[0].get('generated_text', 'Unable to generate caption')`; the
dict branch is unreachable since `query_hf_api` always returns a list). -/
def extractSummary : List (Option String) → String
  | some s :: _ => s
  | none :: _ => "Unable to generate caption"
  | [] => "Unable to generate caption"

/-- Line 183 of `app.py`: the fixed object vocabulary. -/
def commonObjects : List String :=
  ["person", "people", "man", "woman", "child", "car", "tree", "building",
   "house", "sky", "cloud", "water", "grass", "flower", "animal", "dog",
   "cat", "bird", "table", "chair", "book", "phone", "computer", "food",
   "plate", "cup", "bottle", "bag", "road", "street", "window", "door",
   "light", "sign", "bike", "bicycle", "bus", "train", "boat", "airplane",
   "traffic", "fire", "stop"]

/-- Python's `\w` character class, restricted to ASCII (all strings the
pipeline matches against vocabulary words are handled identically). -/
def isWordChar (c : Char) : Bool := c.isAlphanum || c == '_'

/-- Does `\b` hold before the match, given the preceding character
(`none` at the start of the string)?  The vocabulary words begin with a
word character, so only the left side needs checking. -/
def boundaryBefore : Option Char → Bool
  | none => true
  | some c => !isWordChar c

/-- Does `\b` hold between a match ending in a word character and `post`? -/
def headBoundary : List Char → Bool
  | [] => true
  | c :: _ => !isWordChar c

/-- Boundary condition at the end of a prefix `pre` of the haystack. -/
def lastBoundary : List Char → Bool
  | [] => true
  | [c] => !isWordChar c
  | _ :: c :: rest => lastBoundary (c :: rest)

/-- `w` is a prefix of `text` and a word boundary follows it. -/
def matchAt : List Char → List Char → Bool
  | [], text => headBoundary text
  | _ :: _, [] => false
  | a :: w, b :: t => a == b && matchAt w t

/-- The regex `ws?\b` matches at the start of `text`. -/
def matchHere (w text : List Char) : Bool :=
  matchAt w text || matchAt (w ++ ['s']) text

/-- `re.search(r'\bws?\b', text)` scanned from the position after `prev`
(`prev = none` at the start of the string). -/
def searchWordAux (w : List Char) (prev : Option Char) : List Char → Bool
  | [] => boundaryBefore prev && matchHere w []
  | c :: rest =>
      (boundaryBefore prev && matchHere w (c :: rest)) ||
        searchWordAux w (some c) rest

/-- Line 188 of `app.py`: truthiness of
`re.search(r'\b' + re.escape(obj) + r's?\b', text)`. -/
def reSearchPlural (obj : String) (text : List Char) : Bool :=
  searchWordAux obj.toList none text

/-- Python `str.lower()` at the character-list level. -/
def lowerChars (l : List Char) : List Char := l.map Char.toLower

/-- Line 180 of `app.py`: the haystack
`f"{general_summary} {detailed_description}".lower()`; since
`detailed_description = general_summary` (line 177) this is the caption
duplicated around a space, lowercased. -/
def codeHaystack (caption : String) : List Char :=
  lowerChars (caption.toList ++ ' ' :: caption.toList)

/-- Modelled from the spec: the haystack the specification describes, the
single lowercased caption (the spec calls the duplication "a detail not
worth reproducing semantically"). -/
def singleHaystack (caption : String) : List Char :=
  lowerChars caption.toList

/-- Lines 185-189 of `app.py`: the vocabulary words detected in the
caption, scanning the haystack the code builds. -/
def codeDetectedWords (caption : String) : List String :=
  commonObjects.filter fun obj => reSearchPlural obj (codeHaystack caption)

/-- Modelled from the spec: the detected vocabulary words when scanning the
single lowercased caption instead of the duplicated haystack. -/
def specDetectedWords (caption : String) : List String :=
  commonObjects.filter fun obj => reSearchPlural obj (singleHaystack caption)

/-- Python `str.capitalize()` on an ASCII word. -/
def pyCapitalize (s : String) : String :=
  match s.toList with
  | [] => ""
  | c :: rest => String.mk (c.toUpper :: rest.map Char.toLower)

/-- Lines 182-189 of `app.py`: `visible_objects`, the capitalized detected
words in vocabulary order. -/
def visibleFrom (caption : String) : List String :=
  (codeDetectedWords caption).map pyCapitalize

/-- Line 197 of `app.py`: the placeholder emitted when nothing matched. -/
def noteText : String :=
  "**Note:** Upload an image to see detailed element detection"

/-- Lines 192-197 of `app.py`: assemble `elements_list` from the
description and `visible_objects`; the bullet list iterates
`set(visible_objects)` (modelled as `dedup`). -/
def mkElements (detailed_description : String) (visible_objects : List String) :
    String :=
  let elements := "**AI Description:**\n" ++ detailed_description ++ "\n\n"
  if visible_objects.isEmpty then
    elements ++ noteText
  else
    elements ++ "**Detected Objects:**\n" ++
      String.intercalate "\n"
        ((visible_objects.dedup).map fun obj => "‚Ä¢ " ++ obj)

/-- The full formatter: from the raw caption to the rendered
`elements_list` string (recall `detailed_description = general_summary`). -/
def captionElements (caption : String) : String :=
  mkElements caption (visibleFrom caption)

/-- Lines 203-228 of `app.py`: the `except` clauses of `analyze_image`,
turning an exception into a user-facing message pair.  The substring tests
are Python's `in`, case-sensitive exactly where the source is. -/
def handleErr : PyErr → String × String
  | PyErr.valueError m =>
      if strContains m "HUGGINGFACE_TOKEN not found" then
        ("‚ö†Ô∏è **Setup Required**: Please add your Hugging Face token to the .env file. See README for instructions.", "")
      else
        ("‚ùå **Configuration Error**: " ++ m, "")
  | PyErr.exc _ m =>
      if strContains m "401" || strContains m.toLower "unauthorized" then
        ("‚ö†Ô∏è **Authentication Error**: Invalid Hugging Face token. Please verify your token.", "")
      else if strContains m "503" || strContains m.toLower "model is currently loading" then
        ("‚ö†Ô∏è **Service Error**: Model is loading. Please try again in a few moments.", "")
      else if strContains m.toLower "rate limit" then
        ("‚ö†Ô∏è **Rate Limit**: Too many requests. Please wait before trying again.", "")
      else if strContains m "all models failed" then
        ("‚ùå **Model Error**: " ++ m ++ ". Check app.log for detailed error information.", "")
      else
        ("‚ùå **Unexpected Error**: " ++ m ++ ". Check app.log for details.", "")

/-- Lines 154-158 of `app.py`: the fallback model list. -/
def fallbackModels : List String :=
  ["microsoft/git-base-coco", "ydshieh/vit-gpt2-coco-en",
   "Salesforce/blip-image-captioning-base"]

/-- The outcome of `analyze_image`: the candidates the backend was asked
about, and either the returned message pair or a propagated exception
(`Except.error` would mean an exception escaped `analyze_image`). -/
structure AnalyzeOut where
  attempts : List String
  result : Except PyErr (String × String)

/-- Lines 106-228 of `app.py`: `analyze_image`.  `token` models the
environment variable, `backend` the inference client, `openImg` the file
system (dimensions of the image stored at a path). -/
def analyzeImage (backend : Nat × Nat → String → Except PyErr BackendResult)
    (openImg : String → Nat × Nat) (token : String) :
    Option ImageInput → AnalyzeOut
  | none => ⟨[], Except.ok ("Please upload an image first.", "")⟩
  | some img =>
      let image := preprocess openImg img
      let q := queryHfApi backend image token
        "nlpconnect/vit-gpt2-image-captioning" fallbackModels
      match q.2 with
      | Except.ok items =>
          let general_summary := extractSummary items
          ⟨q.1, Except.ok (captionElements general_summary, general_summary)⟩
      | Except.error e => ⟨q.1, Except.ok (handleErr e)⟩

/-- The `\b` condition for the position right before a match, combining the
character before the scanned region (`prev`, `none` at string start) with
the haystack prefix `pre` already consumed. -/
def preBoundary (prev : Option Char) : List Char → Bool
  | [] => boundaryBefore prev
  | c :: rest => lastBoundary (c :: rest)

/-- Witness backend: candidate "m1" succeeds with a caption, every other
candidate fails. -/
def demoBackend : Nat × Nat → String → Except PyErr BackendResult :=
  fun _ m =>
    if m = "m1" then Except.ok (BackendResult.str " a cat ")
    else Except.error (PyErr.exc "Err" "down")

/-- Witness backend: every call fails. -/
def failBackend : Nat × Nat → String → Except PyErr BackendResult :=
  fun _ _ => Except.error (PyErr.exc "Err" "down")

/-! ### The fallback loop of `query_hf_api` -/

/-- Step equation: a succeeding candidate ends the loop at once. -/
theorem queryLoop_cons_ok
    (backend : Nat × Nat → String → Except PyErr BackendResult)
    (image : Nat × Nat) (m : String) (rest : List String) (acc : Option String)
    (r : BackendResult) (h : backend image m = Except.ok r) :
    queryLoop backend image (m :: rest) acc = ([m], Except.ok (wrapResult r)) := by
  simp [queryLoop, h]

/-- Step equation: a failing candidate is recorded and the loop moves on. -/
theorem queryLoop_cons_err
    (backend : Nat × Nat → String → Except PyErr BackendResult)
    (image : Nat × Nat) (m : String) (rest : List String) (acc : Option String)
    (e : PyErr) (h : backend image m = Except.error e) :
    queryLoop backend image (m :: rest) acc =
      (m :: (queryLoop backend image rest (some (fmtFail m e))).1,
       (queryLoop backend image rest (some (fmtFail m e))).2) := by
  simp [queryLoop, h]

/-- If every candidate in `pre` fails and `succ` then succeeds, the loop
attempts exactly `pre ++ [succ]`, in order, and returns the normalised
result of `succ`; the candidates in `rest` are never attempted. -/
theorem queryLoop_stops_at_success
    (backend : Nat × Nat → String → Except PyErr BackendResult)
    (image : Nat × Nat) (pre : List String) :
    ∀ (succ : String) (rest : List String) (acc : Option String)
      (r : BackendResult),
      (∀ m ∈ pre, ∃ e, backend image m = Except.error e) →
      backend image succ = Except.ok r →
      queryLoop backend image (pre ++ succ :: rest) acc =
        (pre ++ [succ], Except.ok (wrapResult r)) := by
  induction pre with
  | nil =>
      intro succ rest acc r _ hsucc
      simp [queryLoop, hsucc]
  | cons m pre ih =>
      intro succ rest acc r hfail hsucc
      obtain ⟨e, he⟩ := hfail m (List.mem_cons_self m pre)
      have hrec := ih succ rest (some (fmtFail m e)) r
        (fun x hx => hfail x (List.mem_cons_of_mem m hx)) hsucc
      simp [queryLoop, he, hrec]

/-- If every candidate fails, the loop attempts all of them and raises the
aggregate exception built from the last candidate's recorded error. -/
theorem queryLoop_all_fail
    (backend : Nat × Nat → String → Except PyErr BackendResult)
    (image : Nat × Nat) (models : List String) :
    ∀ (acc : Option String) (last : String) (e : PyErr),
      (∀ m ∈ models, ∃ e', backend image m = Except.error e') →
      models.getLast? = some last →
      backend image last = Except.error e →
      queryLoop backend image models acc =
        (models,
         Except.error (PyErr.exc "Exception" (aggMsg (some (fmtFail last e))))) := by
  induction models with
  | nil =>
      intro acc last e _ hlast _
      simp at hlast
  | cons m rest ih =>
      intro acc last e hfail hlast herr
      cases rest with
      | nil =>
          have hm : last = m := by simpa using hlast.symm
          subst hm
          simp [queryLoop, herr, aggMsg, optionToPyStr]
      | cons r rs =>
          obtain ⟨em, hem⟩ := hfail m (List.mem_cons_self m (r :: rs))
          have hlast' : (r :: rs).getLast? = some last := by
            simpa [List.getLast?_cons_cons] using hlast
          have hrec := ih (some (fmtFail m em)) last e
            (fun x hx => hfail x (List.mem_cons_of_mem m hx)) hlast' herr
          rw [queryLoop_cons_err backend image m (r :: rs) acc em hem, hrec]

/-- If the loop's outcome is an exception, every candidate was attempted
and every candidate's backend call failed. -/
theorem queryLoop_error_all_fail
    (backend : Nat × Nat → String → Except PyErr BackendResult)
    (image : Nat × Nat) (models : List String) :
    ∀ (acc : Option String) (err : PyErr),
      (queryLoop backend image models acc).2 = Except.error err →
      ∀ m ∈ models, ∃ e, backend image m = Except.error e := by
  induction models with
  | nil =>
      intro acc err _ m hm
      simp at hm
  | cons m rest ih =>
      intro acc err herr x hx
      cases hbm : backend image m with
      | ok r =>
          rw [show queryLoop backend image (m :: rest) acc =
                ([m], Except.ok (wrapResult r)) by simp [queryLoop, hbm]] at herr
          exact absurd herr (by simp)
      | error e =>
          have hsnd : (queryLoop backend image (m :: rest) acc).2 =
              (queryLoop backend image rest (some (fmtFail m e))).2 := by
            simp [queryLoop, hbm]
          rcases List.mem_cons.1 hx with rfl | hx'
          · exact ⟨e, hbm⟩
          · exact ih (some (fmtFail m e)) err (by rw [← hsnd]; exact herr) x hx'

/-- C1: for every image and every ordered candidate list in which the first
N candidates' backend calls raise and candidate N+1 succeeds with a caption,
`query_hf_api` attempts exactly the first N+1 candidates, each once and in
order, attempts nothing after the success, and returns the succeeding
candidate's caption wrapped as a `generated_text` result. -/
theorem query_first_success
    (backend : Nat × Nat → String → Except PyErr BackendResult)
    (image : Nat × Nat) (token model_id succ caption : String)
    (pre rest fallback_models : List String)
    (htok : pyStrip token ≠ "" ∧ pyStrip token ≠ "your_token_here")
    (hsplit : model_id :: fallback_models = pre ++ succ :: rest)
    (hfail : ∀ m ∈ pre, ∃ e, backend image m = Except.error e)
    (hsucc : backend image succ = Except.ok (BackendResult.str caption)) :
    queryHfApi backend image token model_id fallback_models =
      (pre ++ [succ], Except.ok [some (pyStrip caption)]) := by
  have hcond : ¬(pyStrip token = "" ∨ pyStrip token = "your_token_here") := by
    rintro (h | h)
    · exact htok.1 h
    · exact htok.2 h
  rw [queryHfApi]
  simp only [if_neg hcond]
  rw [hsplit]
  exact queryLoop_stops_at_success backend image pre succ rest none
    (BackendResult.str caption) hfail hsucc

/-- Witness for `query_first_success`: with primary "m0" failing and
fallback "m1" succeeding, exactly ["m0", "m1"] are attempted and the
stripped caption is returned wrapped as a `generated_text` result. -/
theorem query_first_success_witness :
    queryHfApi demoBackend (64, 64) "hf_token" "m0" ["m1"] =
      (["m0", "m1"], Except.ok [some (pyStrip " a cat ")]) :=
  query_first_success demoBackend (64, 64) "hf_token" "m0" "m1" " a cat "
    ["m0"] [] ["m1"] ⟨by decide, by decide⟩ rfl
    (by
      intro m hm
      rw [List.mem_singleton] at hm
      subst hm
      exact ⟨PyErr.exc "Err" "down", rfl⟩)
    rfl

/-- C2 counterexample: with the two candidates "qqq" and "zzz" both
failing, `query_hf_api` attempts both, yet the raised message mentions only
the last candidate "zzz"; the name of the first attempted candidate "qqq"
(and hence its failure reason) does not occur in the message at all, so the
message does not name every attempted candidate. -/
theorem query_aggregate_error_cex :
    (queryHfApi failBackend (64, 64) "hf_token" "qqq" ["zzz"]).1 =
      ["qqq", "zzz"] ∧
    (queryHfApi failBackend (64, 64) "hf_token" "qqq" ["zzz"]).2 =
      Except.error (PyErr.exc "Exception"
        "All models failed. Last error: Model zzz failed: down (Err)") ∧
    strContains
      "All models failed. Last error: Model zzz failed: down (Err)" "zzz" = true ∧
    strContains
      "All models failed. Last error: Model zzz failed: down (Err)" "qqq" = false := by
  refine ⟨rfl, rfl, by decide, by decide⟩

/-- C2 (amended): when every candidate's backend call raises, `query_hf_api`
fails with an error whose message names the LAST attempted candidate
together with that candidate's failure reason and exception type (earlier
candidates and their reasons are not part of the message). -/
theorem query_all_fail_message
    (backend : Nat × Nat → String → Except PyErr BackendResult)
    (image : Nat × Nat) (token model_id last : String)
    (fallback_models : List String) (e : PyErr)
    (htok : pyStrip token ≠ "" ∧ pyStrip token ≠ "your_token_here")
    (hfail : ∀ m ∈ model_id :: fallback_models, ∃ e', backend image m = Except.error e')
    (hlast : (model_id :: fallback_models).getLast? = some last)
    (herr : backend image last = Except.error e) :
    (queryHfApi backend image token model_id fallback_models).2 =
      Except.error (PyErr.exc "Exception"
        ("All models failed. Last error: " ++
          ("Model " ++ last ++ " failed: " ++ e.msg ++ " (" ++ e.typeName ++ ")"))) := by
  have hcond : ¬(pyStrip token = "" ∨ pyStrip token = "your_token_here") := by
    rintro (h | h)
    · exact htok.1 h
    · exact htok.2 h
  rw [queryHfApi]
  simp only [if_neg hcond]
  rw [queryLoop_all_fail backend image (model_id :: fallback_models) none last e
    hfail hlast herr]
  rfl

/-- Witness for `query_all_fail_message`: both candidates fail; the message
reports the last candidate "zzz" with its reason and type. -/
theorem query_all_fail_message_witness :
    (queryHfApi failBackend (64, 64) "hf_token" "qqq" ["zzz"]).2 =
      Except.error (PyErr.exc "Exception"
        ("All models failed. Last error: " ++
          ("Model " ++ "zzz" ++ " failed: " ++ (PyErr.exc "Err" "down").msg ++
            " (" ++ (PyErr.exc "Err" "down").typeName ++ ")"))) :=
  query_all_fail_message failBackend (64, 64) "hf_token" "qqq" "zzz" ["zzz"]
    (PyErr.exc "Err" "down") ⟨by decide, by decide⟩
    (by intro m hm; exact ⟨PyErr.exc "Err" "down", rfl⟩) rfl rfl

/-- C3: `query_hf_api` raises only after every candidate has been attempted
and failed — if its outcome is an exception then the attempt list is the
whole candidate list and every candidate's call failed (each single failure
was non-fatal and the loop moved on) — and the raised message embeds the
failure reason of the last attempted candidate. -/
theorem query_raises_only_after_all
    (backend : Nat × Nat → String → Except PyErr BackendResult)
    (image : Nat × Nat) (token model_id : String)
    (fallback_models : List String)
    (htok : pyStrip token ≠ "" ∧ pyStrip token ≠ "your_token_here")
    (herr : ∃ err, (queryHfApi backend image token model_id fallback_models).2 =
      Except.error err) :
    (queryHfApi backend image token model_id fallback_models).1 =
      model_id :: fallback_models ∧
    (∀ m ∈ model_id :: fallback_models, ∃ e, backend image m = Except.error e) ∧
    ∃ last e, (model_id :: fallback_models).getLast? = some last ∧
      backend image last = Except.error e ∧
      (queryHfApi backend image token model_id fallback_models).2 =
        Except.error (PyErr.exc "Exception"
          ("All models failed. Last error: " ++ fmtFail last e)) := by
  have hcond : ¬(pyStrip token = "" ∨ pyStrip token = "your_token_here") := by
    rintro (h | h)
    · exact htok.1 h
    · exact htok.2 h
  obtain ⟨err, herr⟩ := herr
  rw [queryHfApi] at herr ⊢
  simp only [if_neg hcond] at herr ⊢
  have hfail : ∀ m ∈ model_id :: fallback_models, ∃ e, backend image m = Except.error e :=
    queryLoop_error_all_fail backend image (model_id :: fallback_models) none err herr
  obtain ⟨last, hlast⟩ : ∃ last, (model_id :: fallback_models).getLast? = some last := by
    cases h : (model_id :: fallback_models).getLast? with
    | none => exact absurd h (by simp)
    | some l => exact ⟨l, rfl⟩
  have hlastmem : last ∈ model_id :: fallback_models := List.mem_of_mem_getLast? hlast
  obtain ⟨e, he⟩ := hfail last hlastmem
  have heval := queryLoop_all_fail backend image (model_id :: fallback_models) none
    last e hfail hlast he
  rw [heval]
  exact ⟨rfl, hfail, last, e, hlast, he, rfl⟩

/-- Witness for `query_raises_only_after_all` at the all-failing backend
with candidates "qqq" and "zzz". -/
theorem query_raises_only_after_all_witness :
    (queryHfApi failBackend (64, 64) "hf_token" "qqq" ["zzz"]).1 =
      ["qqq", "zzz"] ∧
    (∀ m ∈ ["qqq", "zzz"], ∃ e, failBackend (64, 64) m = Except.error e) ∧
    ∃ last e, (["qqq", "zzz"] : List String).getLast? = some last ∧
      failBackend (64, 64) last = Except.error e ∧
      (queryHfApi failBackend (64, 64) "hf_token" "qqq" ["zzz"]).2 =
        Except.error (PyErr.exc "Exception"
          ("All models failed. Last error: " ++ fmtFail last e)) :=
  query_raises_only_after_all failBackend (64, 64) "hf_token" "qqq" ["zzz"]
    ⟨by decide, by decide⟩ ⟨PyErr.exc "Exception"
      "All models failed. Last error: Model zzz failed: down (Err)", rfl⟩

/-! ### Image preprocessing -/

/-- C5: for every image with more than 50,000,000 pixels, the image handed
to the backend is the downscaled one, its longer side is at most 5000, and
its aspect ratio agrees with the original up to the integer rounding of one
division (the cross-products `new_width * height` and `width * new_height`
differ by less than `max width height`). -/
theorem resize_bounds (openImg : String → Nat × Nat) (w h : Nat)
    (hbig : w * h > 50000000) :
    preprocess openImg (ImageInput.pil w h) = resizeLarge w h ∧
    max (resizeLarge w h).1 (resizeLarge w h).2 ≤ 5000 ∧
    (((resizeLarge w h).1 : Int) * h - (w : Int) * (resizeLarge w h).2).natAbs <
      max w h := by
  have hpre : preprocess openImg (ImageInput.pil w h) = resizeLarge w h := by
    have h20 : w * h > 20000000 := by omega
    simp [preprocess, h20, hbig]
  refine ⟨hpre, ?_⟩
  by_cases hwh : w > h
  · have hw5 : 5000 ≤ w := by
      by_contra hlt
      push_neg at hlt
      have hh : h ≤ 4999 := by omega
      have hw : w ≤ 4999 := by omega
      have : w * h ≤ 4999 * 4999 := Nat.mul_le_mul hw hh
      omega
    have hres : resizeLarge w h = (5000, h * 5000 / w) := by
      simp [resizeLarge, hwh, Nat.min_eq_right hw5]
    rw [hres]
    have hw0 : 0 < w := by omega
    have hA : h * 5000 / w * w ≤ h * 5000 := Nat.div_mul_le_self (h * 5000) w
    have hB : h * 5000 < w * (h * 5000 / w) + w := by
      have hdm := Nat.div_add_mod (h * 5000) w
      have hmod : (h * 5000) % w < w := Nat.mod_lt _ hw0
      omega
    have hq5 : h * 5000 / w < 5000 := by
      have : h * 5000 < 5000 * w := by
        have h2 : h * 5000 < w * 5000 :=
          (Nat.mul_lt_mul_right (show 0 < 5000 by omega)).2 hwh
        omega
      exact Nat.div_lt_iff_lt_mul hw0 |>.2 this
    constructor
    · simp only [max_le_iff]
      exact ⟨le_refl 5000, by omega⟩
    · have hc : ((w : Int) * (h * 5000 / w : Nat)) =
          ((w * (h * 5000 / w) : Nat) : Int) := by push_cast; ring
      obtain ⟨t, ht⟩ : ∃ t, w * (h * 5000 / w) = t := ⟨_, rfl⟩
      have hA' : t ≤ h * 5000 := by
        rw [← ht]
        calc w * (h * 5000 / w) = h * 5000 / w * w := by ring
        _ ≤ h * 5000 := hA
      have hB' : h * 5000 < t + w := by rw [← ht]; exact hB
      have key : (((5000 : Nat) : Int) * h - (w : Int) * (h * 5000 / w : Nat)).natAbs < w := by
        rw [hc, ht]
        omega
      exact lt_of_lt_of_le (by simpa using key) (le_max_left w h)
  · push_neg at hwh
    have hh5 : 5000 ≤ h := by
      by_contra hlt
      push_neg at hlt
      have hh : h ≤ 4999 := by omega
      have hw : w ≤ 4999 := by omega
      have : w * h ≤ 4999 * 4999 := Nat.mul_le_mul hw hh
      omega
    have hres : resizeLarge w h = (w * 5000 / h, 5000) := by
      simp [resizeLarge, Nat.min_eq_right hh5, show ¬(w > h) by omega]
    rw [hres]
    have hh0 : 0 < h := by omega
    have hA : w * 5000 / h * h ≤ w * 5000 := Nat.div_mul_le_self (w * 5000) h
    have hB : w * 5000 < h * (w * 5000 / h) + h := by
      have hdm := Nat.div_add_mod (w * 5000) h
      have hmod : (w * 5000) % h < h := Nat.mod_lt _ hh0
      omega
    have hq5 : w * 5000 / h ≤ 5000 := by
      have : w * 5000 ≤ 5000 * h := by
        have := Nat.mul_le_mul_right 5000 hwh
        omega
      exact (Nat.div_le_iff_le_mul_add_pred hh0).2 (by omega)
    constructor
    · simp only [max_le_iff]
      exact ⟨hq5, le_refl 5000⟩
    · have hc : ((w * 5000 / h : Nat) : Int) * (h : Int) =
          ((w * 5000 / h * h : Nat) : Int) := by push_cast; ring
      obtain ⟨t, ht⟩ : ∃ t, w * 5000 / h * h = t := ⟨_, rfl⟩
      have hA' : t ≤ w * 5000 := by rw [← ht]; exact hA
      have hB' : w * 5000 < t + h := by
        rw [← ht]
        calc w * 5000 < h * (w * 5000 / h) + h := hB
        _ = w * 5000 / h * h + h := by ring_nf
      have key : (((w * 5000 / h : Nat) : Int) * h - (w : Int) * ((5000 : Nat) : Int)).natAbs < h := by
        rw [hc, ht]
        omega
      exact lt_of_lt_of_le (by simpa using key) (le_max_right w h)

/-- Witness for `resize_bounds` at a 20000 x 3000 (60 MP) image. -/
theorem resize_bounds_witness :
    preprocess (fun _ => (0, 0)) (ImageInput.pil 20000 3000) =
      resizeLarge 20000 3000 ∧
    max (resizeLarge 20000 3000).1 (resizeLarge 20000 3000).2 ≤ 5000 ∧
    (((resizeLarge 20000 3000).1 : Int) * 3000 -
        (20000 : Int) * (resizeLarge 20000 3000).2).natAbs < max 20000 3000 :=
  resize_bounds (fun _ => (0, 0)) 20000 3000 (by decide)

/-- C9: an input given to `analyze_image` as a file-path string is never
downscaled — the size check precedes opening the path and a string has no
`size` attribute — so the image is opened and RGB-converted at its original
dimensions no matter how large the stored image is. -/
theorem path_never_resized (openImg : String → Nat × Nat) (p : String) :
    preprocess openImg (ImageInput.path p) = openImg p := rfl

/-- C10: calling `analyze_image` with `None` returns the pair
("Please upload an image first.", "") at once; no backend candidate is
attempted (the attempt list is empty) and no image processing happens. -/
theorem analyze_none
    (backend : Nat × Nat → String → Except PyErr BackendResult)
    (openImg : String → Nat × Nat) (token : String) :
    analyzeImage backend openImg token none =
      ⟨[], Except.ok ("Please upload an image first.", "")⟩ := rfl

/-- C7: whatever the token, backend behaviour (connection errors, timeouts,
authentication failures, service-unavailable, exhausted candidates — any
`PyErr` whatsoever) and input, `analyze_image` returns a pair of user-facing
strings; no exception propagates to its caller (the result is never
`Except.error`). -/
theorem analyze_catches_all
    (backend : Nat × Nat → String → Except PyErr BackendResult)
    (openImg : String → Nat × Nat) (token : String) (inp : Option ImageInput) :
    ∃ pair, (analyzeImage backend openImg token inp).result = Except.ok pair := by
  cases inp with
  | none => exact ⟨_, rfl⟩
  | some img =>
      simp only [analyzeImage]
      split
      · exact ⟨_, rfl⟩
      · exact ⟨_, rfl⟩

/-! ### Reflection of the word-boundary scanner -/

theorem preBoundary_cons (prev : Option Char) (c : Char) (l : List Char) :
    preBoundary prev (c :: l) = preBoundary (some c) l := by
  cases l <;> rfl

theorem lastBoundary_append (l l₂ : List Char) (h : l₂ ≠ []) :
    lastBoundary (l ++ l₂) = lastBoundary l₂ := by
  induction l with
  | nil => rfl
  | cons c l ih =>
      have hne : l ++ l₂ ≠ [] := by
        intro hx
        exact h (List.append_eq_nil.1 hx).2
      cases hl : l ++ l₂ with
      | nil => exact absurd hl hne
      | cons d t =>
          calc lastBoundary (c :: l ++ l₂) = lastBoundary (c :: d :: t) := by
                rw [List.cons_append, hl]
          _ = lastBoundary (d :: t) := rfl
          _ = lastBoundary (l ++ l₂) := by rw [hl]
          _ = lastBoundary l₂ := ih

/-- Characterisation of `matchAt`: it holds exactly when `w` is a prefix of
`text` followed by a word boundary. -/
theorem matchAt_eq_true_iff (w : List Char) :
    ∀ text : List Char, matchAt w text = true ↔
      ∃ post, text = w ++ post ∧ headBoundary post = true := by
  induction w with
  | nil =>
      intro text
      constructor
      · intro h
        exact ⟨text, rfl, h⟩
      · rintro ⟨post, rfl, h⟩
        exact h
  | cons a w ih =>
      intro text
      cases text with
      | nil =>
          simp [matchAt]
      | cons b t =>
          simp only [matchAt, Bool.and_eq_true, beq_iff_eq]
          constructor
          · rintro ⟨rfl, hm⟩
            obtain ⟨post, rfl, hb⟩ := (ih t).1 hm
            exact ⟨post, rfl, hb⟩
          · rintro ⟨post, heq, hb⟩
            rw [List.cons_append] at heq
            obtain ⟨rfl, rfl⟩ := List.cons.inj heq
            exact ⟨rfl, (ih (w ++ post)).2 ⟨post, rfl, hb⟩⟩

/-- Characterisation of `matchHere`: it holds exactly when `text` starts
with `w` or `ws` followed by a word boundary. -/
theorem matchHere_eq_true_iff (w text : List Char) :
    matchHere w text = true ↔
      ∃ mid post, text = mid ++ post ∧ (mid = w ∨ mid = w ++ ['s']) ∧
        headBoundary post = true := by
  simp only [matchHere, Bool.or_eq_true, matchAt_eq_true_iff]
  constructor
  · rintro (⟨post, rfl, hb⟩ | ⟨post, rfl, hb⟩)
    · exact ⟨w, post, rfl, Or.inl rfl, hb⟩
    · exact ⟨w ++ ['s'], post, rfl, Or.inr rfl, hb⟩
  · rintro ⟨mid, post, rfl, (rfl | rfl), hb⟩
    · exact Or.inl ⟨post, rfl, hb⟩
    · exact Or.inr ⟨post, rfl, hb⟩

/-- The scan succeeds exactly when the haystack decomposes as
`pre ++ mid ++ post` with `mid` the word or its plural and word boundaries
on both sides. -/
theorem searchWordAux_eq_true_iff (w : List Char) :
    ∀ (text : List Char) (prev : Option Char),
      searchWordAux w prev text = true ↔
        ∃ pre mid post, text = pre ++ mid ++ post ∧
          (mid = w ∨ mid = w ++ ['s']) ∧
          preBoundary prev pre = true ∧ headBoundary post = true := by
  intro text
  induction text with
  | nil =>
      intro prev
      simp only [searchWordAux, Bool.and_eq_true, matchHere_eq_true_iff]
      constructor
      · rintro ⟨hb, mid, post, heq, hmid, hpost⟩
        obtain ⟨rfl, rfl⟩ : mid = [] ∧ post = [] := by
          constructor <;> [exact (List.append_eq_nil.1 heq.symm).1;
            exact (List.append_eq_nil.1 heq.symm).2]
        exact ⟨[], [], [], rfl, hmid, hb, rfl⟩
      · rintro ⟨pre, mid, post, heq, hmid, hpre, hpost⟩
        have h1 := List.append_eq_nil.1 heq.symm
        have h2 := List.append_eq_nil.1 h1.1
        obtain ⟨rfl, rfl⟩ := h2
        obtain rfl := h1.2
        exact ⟨hpre, [], [], rfl, hmid, rfl⟩
  | cons c rest ih =>
      intro prev
      simp only [searchWordAux, Bool.or_eq_true, Bool.and_eq_true,
        matchHere_eq_true_iff]
      constructor
      · rintro (⟨hb, mid, post, heq, hmid, hpost⟩ | hrec)
        · exact ⟨[], mid, post, by simpa using heq, hmid, hb, hpost⟩
        · obtain ⟨pre, mid, post, heq, hmid, hpre, hpost⟩ := (ih (some c)).1 hrec
          refine ⟨c :: pre, mid, post, by simp [heq], hmid, ?_, hpost⟩
          rw [preBoundary_cons]
          exact hpre
      · rintro ⟨pre, mid, post, heq, hmid, hpre, hpost⟩
        cases pre with
        | nil =>
            exact Or.inl ⟨hpre, mid, post, by simpa using heq, hmid, hpost⟩
        | cons p pre' =>
            right
            simp only [List.cons_append] at heq
            obtain ⟨rfl, heq'⟩ := List.cons.inj heq
            refine (ih (some c)).2 ⟨pre', mid, post, heq', hmid, ?_, hpost⟩
            rw [← preBoundary_cons prev c pre']
            exact hpre

/-- Scanning a space-separated duplication of the text for a nonempty
all-word-character word (or its plural) succeeds exactly when scanning the
text once does: a boundary-delimited match cannot straddle the separating
space, and the boundaries at the seam agree with those at the ends of the
single text. -/
theorem searchWord_dup_iff (w a : List Char) (hw : w ≠ [])
    (hwc : ∀ c ∈ w, isWordChar c = true) :
    searchWordAux w none (a ++ ' ' :: a) = true ↔
      searchWordAux w none a = true := by
  have hmidchars : ∀ mid, (mid = w ∨ mid = w ++ ['s']) →
      ∀ c ∈ mid, isWordChar c = true := by
    rintro mid (rfl | rfl) c hc
    · exact hwc c hc
    · rcases List.mem_append.1 hc with h | h
      · exact hwc c h
      · rw [List.mem_singleton] at h
        subst h
        decide
  have hspc : isWordChar ' ' = false := by decide
  rw [searchWordAux_eq_true_iff, searchWordAux_eq_true_iff]
  constructor
  · rintro ⟨pre, mid, post, heq, hmid, hpre, hpost⟩
    have heq' : a ++ (' ' :: a) = pre ++ (mid ++ post) := by
      simpa [List.append_assoc] using heq
    rcases List.append_eq_append_iff.1 heq' with ⟨a', hpre', hrest⟩ | ⟨c', ha, hrest⟩
    · -- pre extends to or past the seam: pre = a ++ a'
      cases a' with
      | nil =>
          -- the match would have to start at the seam space
          simp only [List.nil_append] at hrest
          cases hm : mid with
          | nil =>
              rcases hmid with rfl | rfl
              · exact absurd hm hw
              · simp at hm
          | cons m0 mid' =>
              rw [hm] at hrest
              obtain ⟨h0, _⟩ := List.cons.inj hrest
              have := hmidchars mid hmid m0
                (by rw [hm]; exact List.mem_cons_self m0 mid')
              rw [← h0] at this
              rw [this] at hspc
              exact absurd hspc (by simp)
      | cons x a'' =>
          -- the match lies in the second copy
          obtain ⟨hx, ha''⟩ := List.cons.inj hrest
          subst hx
          refine ⟨a'', mid, post,
            by rw [ha'']; simp [List.append_assoc], hmid, ?_, hpost⟩
          cases a'' with
          | nil =>
              rfl
          | cons y a₃ =>
              have hp : preBoundary none (a ++ ' ' :: y :: a₃) = true := by
                rw [← hpre']
                exact hpre
              have hlb : lastBoundary (a ++ ' ' :: y :: a₃) =
                  lastBoundary (y :: a₃) := by
                have h1 : lastBoundary (a ++ ' ' :: y :: a₃) =
                    lastBoundary (' ' :: y :: a₃) :=
                  lastBoundary_append a (' ' :: y :: a₃) (by simp)
                rw [h1]
                rfl
              cases hav : a ++ ' ' :: y :: a₃ with
              | nil => simp at hav
              | cons z zs =>
                  rw [hav] at hp
                  have hp' : lastBoundary (z :: zs) = true := hp
                  rw [← hav] at hp'
                  rw [hlb] at hp'
                  exact hp'
    · -- the match starts inside the first copy: a = pre ++ c'
      rcases List.append_eq_append_iff.1 hrest with ⟨b, hc', hpost'⟩ | ⟨d, hmid', hrest'⟩
      · -- the match (and part of post) lies inside the first copy
        refine ⟨pre, mid, b,
          by rw [ha, hc']; simp [List.append_assoc], hmid, hpre, ?_⟩
        cases b with
        | nil => rfl
        | cons x xs =>
            rw [hpost'] at hpost
            exact hpost
      · -- the match would straddle the seam
        cases d with
        | nil =>
            simp only [List.append_nil] at hmid'
            refine ⟨pre, mid, [], by rw [ha, hmid']; simp, hmid, hpre, rfl⟩
        | cons x d' =>
            obtain ⟨hx, _⟩ := List.cons.inj hrest'
            have hxm : x ∈ mid := by
              rw [hmid']
              exact List.mem_append.2 (Or.inr (List.mem_cons_self x d'))
            have := hmidchars mid hmid x hxm
            rw [← hx] at this
            rw [this] at hspc
            exact absurd hspc (by simp)
  · rintro ⟨pre, mid, post, heq, hmid, hpre, hpost⟩
    refine ⟨pre, mid, post ++ ' ' :: a,
      by rw [heq]; simp [List.append_assoc], hmid, hpre, ?_⟩
    cases post with
    | nil => simp [headBoundary, hspc]
    | cons x xs => exact hpost

/-- Every vocabulary word is nonempty and consists of word characters. -/
theorem commonObjects_wordlike :
    ∀ o ∈ commonObjects, o.toList ≠ [] ∧ ∀ c ∈ o.toList, isWordChar c = true := by
  decide

/-- The code's haystack is the lowercased caption duplicated around a
space. -/
theorem codeHaystack_eq (caption : String) :
    codeHaystack caption =
      singleHaystack caption ++ ' ' :: singleHaystack caption := by
  unfold codeHaystack singleHaystack lowerChars
  rw [List.map_append, List.map_cons]
  rfl

/-- The duplicated haystack detects exactly the vocabulary words that the
single lowercased caption detects. -/
theorem detectedWords_eq (caption : String) :
    codeDetectedWords caption = specDetectedWords caption := by
  unfold codeDetectedWords specDetectedWords
  apply List.filter_congr
  intro o ho
  obtain ⟨hne, hwc⟩ := commonObjects_wordlike o ho
  unfold reSearchPlural
  rw [codeHaystack_eq]
  have hiff := searchWord_dup_iff o.toList (singleHaystack caption) hne hwc
  cases h1 : searchWordAux o.toList none
      (singleHaystack caption ++ ' ' :: singleHaystack caption) <;>
    cases h2 : searchWordAux o.toList none (singleHaystack caption) <;>
      simp_all

/-- C8: for every caption, scanning the duplicated lowercase haystack with
the regex for each vocabulary word yields exactly the detected-word set
that scanning the single lowercased caption yields, so the duplication has
no effect on the detected-object list either. -/
theorem dup_haystack_no_effect (caption : String) :
    codeDetectedWords caption = specDetectedWords caption ∧
    visibleFrom caption = (specDetectedWords caption).map pyCapitalize :=
  ⟨detectedWords_eq caption, by rw [visibleFrom, detectedWords_eq]⟩

/-- C4: for every caption whose lowercased text contains a vocabulary word
as a whole word (with or without a trailing "s"), the deduplicated
detected-objects list rendered by the formatter contains the capitalized
form of that word exactly once; no vocabulary word contributes more than
one bullet. -/
theorem detect_exactly_once (caption w : String)
    (hw : w ∈ commonObjects)
    (hmatch : reSearchPlural w (singleHaystack caption) = true) :
    List.count (pyCapitalize w) ((visibleFrom caption).dedup) = 1 := by
  have hcode : reSearchPlural w (codeHaystack caption) = true := by
    obtain ⟨hne, hwc⟩ := commonObjects_wordlike w hw
    unfold reSearchPlural at hmatch ⊢
    rw [codeHaystack_eq]
    exact (searchWord_dup_iff w.toList (singleHaystack caption) hne hwc).2 hmatch
  have hmem : pyCapitalize w ∈ visibleFrom caption :=
    List.mem_map_of_mem pyCapitalize (List.mem_filter.2 ⟨hw, hcode⟩)
  rw [List.count_dedup, if_pos hmem]

/-- Witness for `detect_exactly_once`: "cat" is detected exactly once in
"a cat and a dog". -/
theorem detect_exactly_once_witness :
    List.count (pyCapitalize "cat") ((visibleFrom "a cat and a dog").dedup) = 1 :=
  detect_exactly_once "a cat and a dog" "cat" (by decide) (by decide)

/-- C6: for every caption in which no vocabulary word matches as a whole
word (with or without trailing "s") in the lowercased text, the formatter
produces no detected object, and its elements output is exactly the
AI-description block followed by the placeholder note — no Detected
Objects bullet list is appended. -/
theorem no_match_placeholder (caption : String)
    (h : ∀ w ∈ commonObjects, reSearchPlural w (singleHaystack caption) = false) :
    visibleFrom caption = [] ∧
    captionElements caption =
      "**AI Description:**\n" ++ caption ++ "\n\n" ++ noteText := by
  have hspec : specDetectedWords caption = [] := by
    unfold specDetectedWords
    rw [List.filter_eq_nil_iff]
    intro a ha
    simp [h a ha]
  have hvis : visibleFrom caption = [] := by
    rw [visibleFrom, detectedWords_eq, hspec]
    rfl
  refine ⟨hvis, ?_⟩
  rw [captionElements, hvis, mkElements]
  simp

/-- Witness for `no_match_placeholder` at the caption "hello world". -/
theorem no_match_placeholder_witness :
    visibleFrom "hello world" = [] ∧
    captionElements "hello world" =
      "**AI Description:**\n" ++ "hello world" ++ "\n\n" ++ noteText :=
  no_match_placeholder "hello world" (by decide)
